import Mathlib

/-!
Verification of the map-rendering core of the `ai_locations_chat` client.

The definitions below are a shallow embedding of
`client/src/components/Map.tsx` and `client/src/app/page.tsx`:

* JavaScript `number` coordinates and thresholds are modelled as exact
  rationals (`ℚ`);
* the truthiness of JavaScript strings (`undefined` and `""` are falsy) is
  modelled explicitly;
* the `Math.sqrt(d) <= t` comparison of `clusterLocations` is modelled by
  the equivalent square-root-free test `0 ≤ t ∧ d ≤ t ^ 2`;
* the stateful React component is modelled as explicit state types with
  transition functions.
-/

namespace AiLoc

/-- One GPS observation, mirroring the `LocationItem` interface of
`Map.tsx` (lines 9-17).  Numeric fields are exact rationals, the optional
`person` field is an `Option String`. -/
structure LocationItem where
  latitude : ℚ
  longitude : ℚ
  timestamp : String
  person : Option String
  altitude : ℚ
  speed_mps : ℚ
  horizontal_accuracy_meters : ℚ
deriving DecidableEq, Repr

/-- A cluster of samples, mirroring the `ClusterItem` interface of
`Map.tsx` (lines 19-23); the Leaflet `LatLngExpression` center is a pair
(latitude, longitude). -/
structure ClusterItem where
  locations : List LocationItem
  center : ℚ × ℚ
  person : String
deriving DecidableEq, Repr

/-- The `LocationResponse` shape from `types/api.ts`: the structured result
of one natural-language query.  The `person_colors` record is modelled as an
association list. -/
structure LocationResponse where
  person : Option String
  persons : Option (List String)
  time_period : Option String
  locations : List LocationItem
  summary : String
  person_colors : Option (List (String × String))
deriving DecidableEq, Repr

/-- JavaScript `a || b` for an optional string `a`: both `undefined` and the
empty string are falsy. -/
def jsOrStr (a : Option String) (b : String) : String :=
  match a with
  | some s => if s.isEmpty then b else s
  | none => b

/-- `location.person || 'unknown'` as used throughout `Map.tsx`. -/
def personOf (l : LocationItem) : String :=
  jsOrStr l.person "unknown"

/-- Squared planar distance in meters between two samples, as computed inside
`clusterLocations` (`Map.tsx` lines 117-120): each degree of latitude or
longitude difference is scaled by 111000 meters and the two components are
combined with the Euclidean norm.  The source takes a square root; we keep
the square. -/
def distSq (a b : LocationItem) : ℚ :=
  ((a.latitude - b.latitude) * 111000) ^ 2 +
    ((a.longitude - b.longitude) * 111000) ^ 2

/-- The membership test `Math.sqrt(distSq) <= distanceThreshold` of
`clusterLocations` (`Map.tsx` line 122).  Over the reals
`Real.sqrt d ≤ t ↔ (0 ≤ t ∧ d ≤ t ^ 2)` when `0 ≤ d`, so the test is stated
without the square root. -/
def withinThreshold (a b : LocationItem) (t : ℚ) : Bool :=
  decide (0 ≤ t) && decide (distSq a b ≤ t ^ 2)

/-- The inner `locations.forEach((otherLocation, otherIndex) => ...)` of
`clusterLocations` (`Map.tsx` lines 113-126): scan the index list `idxs`,
skipping the seed index and already-processed indices; a sample of the
seed's person within the threshold of the seed joins the cluster and its
index is marked processed.  Returns the indices that joined (in scan order)
together with the updated processed set. -/
def innerScan (locs : List LocationItem) (seedIdx : ℕ) (seed : LocationItem)
    (t : ℚ) : List ℕ → List ℕ → List ℕ × List ℕ
  | [], processed => ([], processed)
  | j :: rest, processed =>
    if j = seedIdx ∨ j ∈ processed then
      innerScan locs seedIdx seed t rest processed
    else
      match locs[j]? with
      | none => innerScan locs seedIdx seed t rest processed
      | some other =>
        if personOf other ≠ personOf seed then
          innerScan locs seedIdx seed t rest processed
        else if withinThreshold seed other t then
          let r := innerScan locs seedIdx seed t rest (j :: processed)
          (j :: r.1, r.2)
        else
          innerScan locs seedIdx seed t rest processed

/-- The outer `locations.forEach((location, index) => ...)` of
`clusterLocations` (`Map.tsx` lines 103-130): each unprocessed index seeds a
cluster whose center is the seed's coordinate; the inner scan over the whole
index range collects the members.  Alongside each emitted `ClusterItem` we
keep the list of indices (seed first) that produced it, which the proofs
below use to track coverage. -/
def outerScan (locs : List LocationItem) (t : ℚ) :
    List ℕ → List (ClusterItem × List ℕ) → List ℕ →
      List (ClusterItem × List ℕ) × List ℕ
  | [], clusters, processed => (clusters, processed)
  | i :: rest, clusters, processed =>
    if i ∈ processed then outerScan locs t rest clusters processed
    else
      match locs[i]? with
      | none => outerScan locs t rest clusters processed
      | some location =>
        let r := innerScan locs i location t (List.range locs.length) processed
        outerScan locs t rest
          (clusters ++ [({ locations := location :: r.1.filterMap (fun k => locs[k]?),
                           center := (location.latitude, location.longitude),
                           person := personOf location }, i :: r.1)])
          (i :: r.2)

/-- Shallow embedding of `clusterLocations` (`Map.tsx` lines 99-133): greedy
single-pass clustering of the sample list at a given distance threshold (the
source defaults the threshold to 50). -/
def clusterLocations (locs : List LocationItem) (t : ℚ) : List ClusterItem :=
  ((outerScan locs t (List.range locs.length) [] []).1).map Prod.fst

/-- Modelled from the spec (section 4.3): the single-pass greedy reference
algorithm.  The head of the remaining list seeds a cluster whose center is
fixed to the seed's coordinate; every remaining unassigned sample of the
same person within the distance threshold of the seed (and only of the
seed) joins; the remaining samples are clustered recursively. -/
def greedyClusterSpec (t : ℚ) : List LocationItem → List ClusterItem
  | [] => []
  | seed :: rest =>
    { locations :=
        seed :: rest.filter
          (fun o => decide (personOf o = personOf seed) && withinThreshold seed o t),
      center := (seed.latitude, seed.longitude),
      person := personOf seed } ::
      greedyClusterSpec t
        (rest.filter
          (fun o => !(decide (personOf o = personOf seed) && withinThreshold seed o t)))
termination_by l => l.length
decreasing_by
  simp only [List.length_cons]
  exact Nat.lt_succ_of_le (List.length_filter_le _ _)

/-- The three marker size tiers of `personIcon` (`Map.tsx` line 48). -/
inductive MarkerSize where
  | small
  | medium
  | large
deriving DecidableEq, Repr

/-- Shallow embedding of `getMarkerSize` (`Map.tsx` lines 239-249).  The
source copies the timestamp array, sorts it with the default JavaScript
string comparison (a stable sort under the lexicographic order on `String`,
modelled by `List.insertionSort`), looks up the first index of the
timestamp (`indexOf` yields `-1` when absent), and classifies the rank
ratio. -/
def getMarkerSize (timestamp : String) (allTimestamps : List String) :
    MarkerSize :=
  if allTimestamps.length ≤ 1 then .medium
  else
    let sortedTimes := allTimestamps.insertionSort (· ≤ ·)
    let idx : ℤ :=
      match sortedTimes.findIdx? (fun s => s == timestamp) with
      | some i => (i : ℤ)
      | none => -1
    let r : ℚ := (idx : ℚ) / ((sortedTimes.length : ℚ) - 1)
    if r < 3 / 10 then .small
    else if r > 8 / 10 then .large
    else .medium

/-- The `allTimestamps` memo of the `Map` component (`Map.tsx` lines
251-253): the timestamps of every sample in the current response, across
all persons. -/
def allTimestampsOf (res : Option LocationResponse) : List String :=
  match res with
  | some r => r.locations.map (·.timestamp)
  | none => []

/-- The fixed ten-color palette of `getPersonColor` (`Map.tsx` lines
32-43). -/
def colors : List String :=
  ["#3B82F6", "#EF4444", "#10B981", "#F59E0B", "#8B5CF6",
   "#EC4899", "#06B6D4", "#84CC16", "#F97316", "#6366F1"]

/-- Maximal leading run of decimal digits of a character list. -/
def leadingDigits (cs : List Char) : List Char :=
  cs.takeWhile Char.isDigit

/-- Search for the regular expression `person(\d+)` (as in `Map.tsx` line
29): the first position where the literal `person` is followed by at least
one digit wins, and the capture is the maximal digit run after it. -/
def findPersonNum : List Char → Option (List Char)
  | [] => none
  | c :: rest =>
    if (c :: rest).take 6 = "person".toList ∧
        leadingDigits ((c :: rest).drop 6) ≠ [] then
      some (leadingDigits ((c :: rest).drop 6))
    else
      findPersonNum rest

/-- `person.match(/person(\d+)/)` followed by `parseInt(match[1])`: the
captured digit run read as a decimal natural number. -/
def matchPersonNum (s : String) : Option ℕ :=
  (findPersonNum s.toList).map fun ds =>
    ds.foldl (fun acc c => 10 * acc + (c.toNat - 48)) 0

/-- Shallow embedding of `getPersonColor` (`Map.tsx` lines 26-46).  A falsy
person (absent or empty) yields the fixed gray.  Otherwise the 1-based
numeric suffix (default index 0 when no match) is reduced with the
JavaScript remainder operator, which keeps the sign of the dividend
(`Int.tmod`); a negative index reads past the array and yields `undefined`,
modelled as `none`. -/
def getPersonColor (person : Option String) : Option String :=
  match person with
  | none => some "#6B7280"
  | some p =>
    if p.isEmpty then some "#6B7280"
    else
      let personIndex : ℤ :=
        match matchPersonNum p with
        | some n => (n : ℤ) - 1
        | none => 0
      let i : ℤ := personIndex.tmod (colors.length : ℤ)
      if i < 0 then none else colors[i.toNat]?

/-- JavaScript property lookup `table[person]` on the `person_colors`
record, modelled on the association list. -/
def lookupColor (table : List (String × String)) (p : String) :
    Option String :=
  (table.find? (fun e => e.1 == p)).map Prod.snd

/-- Shallow embedding of `getPersonColorFromResponse` (`Map.tsx` lines
203-208): use the response's `person_colors` entry when the response, the
person and the looked-up color are all truthy, else fall back to
`getPersonColor`. -/
def getPersonColorFromResponse (res : Option LocationResponse)
    (person : Option String) : Option String :=
  match res.bind (·.person_colors), person with
  | some table, some p =>
    if p.isEmpty then getPersonColor person
    else
      match lookupColor table p with
      | some c => if c.isEmpty then getPersonColor person else some c
      | none => getPersonColor person
  | _, _ => getPersonColor person

/-- The default map center of the `Map` component (`Map.tsx` line 171): Tel
Aviv, `[32.0853, 34.7818]`. -/
def defaultCenter : ℚ × ℚ := (320853 / 10000, 347818 / 10000)

/-- `Math.min(x, ...)` over a list, folded from a first value. -/
def listMin (x : ℚ) (l : List ℚ) : ℚ := l.foldl min x

/-- `Math.max(x, ...)` over a list, folded from a first value. -/
def listMax (x : ℚ) (l : List ℚ) : ℚ := l.foldl max x

/-- Shallow embedding of `getMapBounds` (`Map.tsx` lines 179-199): no
samples yield the default center at zoom 13; a single sample yields its
coordinate at zoom 15; two or more samples yield the midpoint of the
min/max latitude and longitude at zoom 14. -/
def getMapBounds (locations : Option LocationResponse) : (ℚ × ℚ) × ℕ :=
  match locations with
  | none => (defaultCenter, 13)
  | some res =>
    match res.locations with
    | [] => (defaultCenter, 13)
    | [l] => ((l.latitude, l.longitude), 15)
    | l :: rest =>
      (((listMin l.latitude (rest.map (·.latitude)) +
           listMax l.latitude (rest.map (·.latitude))) / 2,
        (listMin l.longitude (rest.map (·.longitude)) +
           listMax l.longitude (rest.map (·.longitude))) / 2), 14)

/-- The grouping key of the `locationsByPerson` memo (`Map.tsx` line 212):
`location.person || locations?.person || 'unknown'`. -/
def personKeyOf (res : LocationResponse) (l : LocationItem) : String :=
  jsOrStr l.person (jsOrStr res.person "unknown")

/-- The set of keys of the `locationsByPerson` grouping of a response: the
person ids present in the response's location grouping. -/
def groupKeys (res : LocationResponse) : Finset String :=
  (res.locations.map (personKeyOf res)).toFinset

/-- The local state of the `Map` component (`Map.tsx` lines 174-177): the
three display-mode flags and the visible-person set. -/
structure MapState where
  showPaths : Bool
  showArrows : Bool
  showClusters : Bool
  visiblePersons : Finset String
deriving DecidableEq

/-- The effect of a new query result on the map state: the `useEffect` at
`Map.tsx` lines 221-224 rebuilds the visible-person set from the keys of
`locationsByPerson`; the display-mode flags are untouched. -/
def onNewResult (res : LocationResponse) (s : MapState) : MapState :=
  { s with visiblePersons := groupKeys res }

/-- `togglePersonVisibility` (`Map.tsx` lines 269-277): flip membership of
one person in the visible set. -/
def togglePersonVisibility (p : String) (s : MapState) : MapState :=
  { s with visiblePersons :=
      if p ∈ s.visiblePersons then s.visiblePersons.erase p
      else insert p s.visiblePersons }

/-- The outcome of the `fetch` inside `handleQuery` (`page.tsx` lines
38-47): a parsed successful response, a non-success HTTP status (the
`!response.ok` branch throws), or a transport error (the fetch itself
rejects). -/
inductive FetchOutcome where
  | success (data : LocationResponse)
  | httpError
  | transportError
deriving DecidableEq

/-- The page-level state touched by `handleQuery` (`page.tsx` lines 11-12
and the `alert` call): the displayed result, the loading flag, and the
alerts shown so far. -/
structure PageState where
  locations : Option LocationResponse
  loading : Bool
  alerts : List String
deriving DecidableEq

/-- The user-visible error message of `handleQuery` (`page.tsx` line 54). -/
def queryErrorMessage : String :=
  "Error querying locations. Make sure the backend server is running."

/-- One event of the asynchronous life of `handleQuery`: issuing a query
(`setLoading(true)`), or a pending query resolving with some outcome.  On
success the handler stores the data unconditionally (`setLocations(data)`,
`page.tsx` line 51); on failure it alerts; the `finally` clears the loading
flag in every case. -/
inductive QueryEvent where
  | issue
  | resolve (outcome : FetchOutcome)

/-- State transition of the page for one `QueryEvent`. -/
def applyQueryEvent (s : PageState) : QueryEvent → PageState
  | .issue => { s with loading := true }
  | .resolve (.success d) => { s with locations := some d, loading := false }
  | .resolve .httpError =>
    { s with loading := false, alerts := s.alerts ++ [queryErrorMessage] }
  | .resolve .transportError =>
    { s with loading := false, alerts := s.alerts ++ [queryErrorMessage] }

/-- A whole interleaved run of `handleQuery` invocations. -/
def runQueryEvents (s : PageState) (evs : List QueryEvent) : PageState :=
  evs.foldl applyQueryEvent s

/-- One complete, non-interleaved `handleQuery` call: issue, then resolve. -/
def handleQueryRun (s : PageState) (outcome : FetchOutcome) : PageState :=
  runQueryEvents s [.issue, .resolve outcome]

/-- Whether the sample at index `j` passes the person and distance tests of
the inner scan of `clusterLocations` against the given seed. -/
def joins (locs : List LocationItem) (seed : LocationItem) (t : ℚ) (j : ℕ) :
    Bool :=
  match locs[j]? with
  | none => false
  | some other =>
    decide (personOf other = personOf seed) && withinThreshold seed other t

/-- The full membership test of the inner scan at index `j`: not the seed,
not yet processed, same person, within threshold. -/
def innerPred (locs : List LocationItem) (i : ℕ) (seed : LocationItem)
    (t : ℚ) (processed : List ℕ) (j : ℕ) : Bool :=
  !decide (j = i ∨ j ∈ processed) && joins locs seed t j

/-- Sample constructor used by the concrete test inputs below. -/
def mkSample (la lo : ℚ) (ts : String) (p : Option String) : LocationItem :=
  { latitude := la, longitude := lo, timestamp := ts, person := p,
    altitude := 0, speed_mps := 0, horizontal_accuracy_meters := 0 }

/-- Concrete input refuting global threshold monotonicity: four samples of
one person, in degrees, with pairwise planar distances (in meters)
`AB = 100·111000`, `BC = BD = 60·111000`, `AC = AD > 100·111000`,
`CD = 120·111000`. -/
def cexLocs : List LocationItem :=
  [mkSample 0 0 "a" none, mkSample 100 0 "b" none,
   mkSample 100 60 "c" none, mkSample 100 (-60) "d" none]

/-- Ten samples of `person1` with lexicographically increasing, evenly
spaced timestamps `"10" … "19"`. -/
def p1Samples : List LocationItem :=
  [mkSample 0 0 "10" (some "person1"), mkSample 0 0 "11" (some "person1"),
   mkSample 0 0 "12" (some "person1"), mkSample 0 0 "13" (some "person1"),
   mkSample 0 0 "14" (some "person1"), mkSample 0 0 "15" (some "person1"),
   mkSample 0 0 "16" (some "person1"), mkSample 0 0 "17" (some "person1"),
   mkSample 0 0 "18" (some "person1"), mkSample 0 0 "19" (some "person1")]

/-- Ten samples of `person2` whose timestamps `"00" … "09"` all sort before
those of `p1Samples`. -/
def p2Samples : List LocationItem :=
  [mkSample 0 0 "00" (some "person2"), mkSample 0 0 "01" (some "person2"),
   mkSample 0 0 "02" (some "person2"), mkSample 0 0 "03" (some "person2"),
   mkSample 0 0 "04" (some "person2"), mkSample 0 0 "05" (some "person2"),
   mkSample 0 0 "06" (some "person2"), mkSample 0 0 "07" (some "person2"),
   mkSample 0 0 "08" (some "person2"), mkSample 0 0 "09" (some "person2")]

/-- A query result containing only `person1`'s ten samples. -/
def resOnly1 : LocationResponse :=
  { person := none, persons := none, time_period := none,
    locations := p1Samples, summary := "", person_colors := none }

/-- A query result containing `person1`'s ten samples together with ten
earlier samples of `person2` (listed first, so the combined timestamp list
is already sorted). -/
def resBoth : LocationResponse :=
  { person := none, persons := none, time_period := none,
    locations := p2Samples ++ p1Samples, summary := "", person_colors := none }

/-- A query result whose locations belong to persons `A` and `B`. -/
def resAB : LocationResponse :=
  { person := none, persons := none, time_period := none,
    locations := [mkSample 1 1 "t1" (some "A"), mkSample 2 2 "t2" (some "B")],
    summary := "ab", person_colors := none }

/-- A query result whose locations belong to persons `A` and `C`. -/
def resAC : LocationResponse :=
  { person := none, persons := none, time_period := none,
    locations := [mkSample 3 3 "t3" (some "A"), mkSample 4 4 "t4" (some "C")],
    summary := "ac", person_colors := none }

/-- The (distinct) responses of two overlapping queries. -/
def respQ1 : LocationResponse :=
  { person := none, persons := none, time_period := none,
    locations := [], summary := "answer to Q1", person_colors := none }

/-- See `respQ1`. -/
def respQ2 : LocationResponse :=
  { person := none, persons := none, time_period := none,
    locations := [], summary := "answer to Q2", person_colors := none }

/-- An idle page state displaying `respQ1`. -/
def pageShowingQ1 : PageState :=
  { locations := some respQ1, loading := false, alerts := [] }

/-- A query result carrying a `person_colors` override for `person1`. -/
def resOverride : LocationResponse :=
  { person := none, persons := none, time_period := none, locations := [],
    summary := "", person_colors := some [("person1", "#ABCDEF")] }

/-! ### Properties of the inner scan -/

theorem innerScan_fst (locs : List LocationItem) (i : ℕ) (seed : LocationItem)
    (t : ℚ) (idxs : List ℕ) :
    ∀ processed : List ℕ, idxs.Nodup →
      (innerScan locs i seed t idxs processed).1
        = idxs.filter (innerPred locs i seed t processed) := by
  induction idxs with
  | nil => intro processed _; simp [innerScan]
  | cons j rest ih =>
    intro processed hnd
    have hj : j ∉ rest := (List.nodup_cons.mp hnd).1
    have hrest : rest.Nodup := (List.nodup_cons.mp hnd).2
    rw [List.filter_cons]
    by_cases h1 : j = i ∨ j ∈ processed
    · have hpred : innerPred locs i seed t processed j = false := by
        simp [innerPred, h1]
      simp only [innerScan, if_pos h1, hpred, Bool.false_eq_true, if_neg,
        reduceIte]
      exact ih processed hrest
    · cases hg : locs[j]? with
      | none =>
        have hpred : innerPred locs i seed t processed j = false := by
          simp [innerPred, joins, hg]
        simp only [innerScan, if_neg h1, hg, hpred, Bool.false_eq_true,
          reduceIte]
        exact ih processed hrest
      | some other =>
        by_cases hp : personOf other = personOf seed
        · by_cases hw : withinThreshold seed other t = true
          · have hpred : innerPred locs i seed t processed j = true := by
              simp [innerPred, joins, hg, hp, hw, h1]
            simp only [innerScan, if_neg h1, hg, if_neg (not_not_intro hp),
              if_pos hw, hpred, reduceIte]
            have hcongr :
                rest.filter (innerPred locs i seed t (j :: processed))
                  = rest.filter (innerPred locs i seed t processed) := by
              apply List.filter_congr
              intro k hk
              have hkj : k ≠ j := fun h => hj (h ▸ hk)
              have hiff : (k = i ∨ k ∈ j :: processed) ↔ (k = i ∨ k ∈ processed) := by
                simp only [List.mem_cons]
                constructor
                · rintro (h | h | h)
                  · exact Or.inl h
                  · exact absurd h hkj
                  · exact Or.inr h
                · rintro (h | h)
                  · exact Or.inl h
                  · exact Or.inr (Or.inr h)
              simp only [innerPred, decide_eq_decide.mpr hiff]
            rw [ih (j :: processed) hrest, hcongr]
          · have hpred : innerPred locs i seed t processed j = false := by
              simp [innerPred, joins, hg, hp, hw]
            simp only [innerScan, if_neg h1, hg, if_neg (not_not_intro hp),
              if_neg hw, hpred, Bool.false_eq_true, reduceIte]
            exact ih processed hrest
        · have hpred : innerPred locs i seed t processed j = false := by
            simp [innerPred, joins, hg, hp]
          simp only [innerScan, if_neg h1, hg, if_pos hp, hpred,
            Bool.false_eq_true, reduceIte]
          exact ih processed hrest

theorem filterMap_getElem_filter (locs : List LocationItem)
    (q : LocationItem → Bool) (S : List ℕ) :
    (S.filter (fun j => match locs[j]? with
        | none => false
        | some o => q o)).filterMap (fun k => locs[k]?)
      = (S.filterMap (fun k => locs[k]?)).filter q := by
  induction S with
  | nil => simp
  | cons j rest ih =>
    cases hg : locs[j]? with
    | none => simp [List.filter_cons, List.filterMap_cons, hg, ih]
    | some o =>
      by_cases hq : q o = true
      · simp [List.filter_cons, List.filterMap_cons, hg, hq, ih]
      · simp [List.filter_cons, List.filterMap_cons, hg, hq, ih]

theorem filterMap_getElem_range (l : List LocationItem) :
    (List.range l.length).filterMap (fun k => l[k]?) = l := by
  induction l with
  | nil => simp
  | cons a l ih =>
    rw [List.length_cons, List.range_succ_eq_map, List.filterMap_cons,
      List.filterMap_map]
    have hcomp : ((fun k => (a :: l)[k]?) ∘ Nat.succ) = fun k => l[k]? := by
      funext k
      simp
    simp only [List.getElem?_cons_zero, hcomp, ih]

theorem eq_of_sorted_lt_of_mem_iff {l₁ l₂ : List ℕ}
    (h₁ : l₁.Pairwise (· < ·)) (h₂ : l₂.Pairwise (· < ·))
    (h : ∀ a, a ∈ l₁ ↔ a ∈ l₂) : l₁ = l₂ := by
  haveI : IsAntisymm ℕ (· < ·) :=
    ⟨fun a b hab hba => absurd (hab.trans hba) (lt_irrefl a)⟩
  exact List.eq_of_perm_of_sorted
    ((List.perm_ext_iff_of_nodup (h₁.imp Nat.ne_of_lt) (h₂.imp Nat.ne_of_lt)).mpr h)
    h₁ h₂

theorem innerScan_snd_perm (locs : List LocationItem) (i : ℕ)
    (seed : LocationItem) (t : ℚ) (idxs : List ℕ) :
    ∀ processed : List ℕ,
      ((innerScan locs i seed t idxs processed).2).Perm
        ((innerScan locs i seed t idxs processed).1 ++ processed) := by
  induction idxs with
  | nil => intro processed; simp [innerScan]
  | cons j rest ih =>
    intro processed
    by_cases h1 : j = i ∨ j ∈ processed
    · simp only [innerScan, if_pos h1]
      exact ih processed
    · cases hg : locs[j]? with
      | none =>
        simp only [innerScan, if_neg h1, hg]
        exact ih processed
      | some other =>
        by_cases hp : personOf other = personOf seed
        · by_cases hw : withinThreshold seed other t = true
          · simp only [innerScan, if_neg h1, hg, if_neg (not_not_intro hp),
              if_pos hw]
            exact (ih (j :: processed)).trans List.perm_middle
          · simp only [innerScan, if_neg h1, hg, if_neg (not_not_intro hp),
              if_neg hw]
            exact ih processed
        · simp only [innerScan, if_neg h1, hg, if_pos hp]
          exact ih processed

theorem outerScan_eq_greedy (locs : List LocationItem) (t : ℚ) (idxs : List ℕ) :
    ∀ (clusters : List (ClusterItem × List ℕ)) (processed : List ℕ),
      idxs.Pairwise (· < ·) →
      (∀ j ∈ idxs, j < locs.length) →
      (∀ j, j < locs.length → j ∉ processed → j ∈ idxs) →
      ((outerScan locs t idxs clusters processed).1).map Prod.fst
        = clusters.map Prod.fst
          ++ greedyClusterSpec t
              ((idxs.filter (fun j => !decide (j ∈ processed))).filterMap
                (fun k => locs[k]?)) := by
  induction idxs with
  | nil =>
    intro clusters processed _ _ _
    simp [outerScan, greedyClusterSpec]
  | cons i rest ih =>
    intro clusters processed hsort hlt hcover
    have hisort := List.pairwise_cons.mp hsort
    have hin : i < locs.length := hlt i (List.mem_cons_self i rest)
    have hltrest : ∀ j ∈ rest, j < locs.length :=
      fun j hj => hlt j (List.mem_cons_of_mem i hj)
    by_cases hip : i ∈ processed
    · have hfilter : (i :: rest).filter (fun j => !decide (j ∈ processed))
          = rest.filter (fun j => !decide (j ∈ processed)) := by
        simp [List.filter_cons, hip]
      have hcover2 : ∀ j, j < locs.length → j ∉ processed → j ∈ rest := by
        intro j hjn hjp
        rcases List.mem_cons.mp (hcover j hjn hjp) with h | h
        · exact absurd (h ▸ hip) hjp
        · exact h
      simp only [outerScan, if_pos hip, hfilter]
      exact ih clusters processed hisort.2 hltrest hcover2
    · obtain ⟨seed, hgeti⟩ : ∃ o, locs[i]? = some o := by
        rw [List.getElem?_eq_getElem hin]
        exact ⟨_, rfl⟩
      have hjs_filter := innerScan_fst locs i seed t (List.range locs.length)
        processed (List.nodup_range _)
      have hperm := innerScan_snd_perm locs i seed t (List.range locs.length)
        processed
      have hmem2 : ∀ x, x ∈ (innerScan locs i seed t (List.range locs.length)
            processed).2
          ↔ x ∈ (innerScan locs i seed t (List.range locs.length) processed).1
              ∨ x ∈ processed := by
        intro x
        rw [hperm.mem_iff, List.mem_append]
      have hK1 : (List.range locs.length).filter (innerPred locs i seed t processed)
          = rest.filter (fun j => !decide (j ∈ processed) && joins locs seed t j) := by
        apply eq_of_sorted_lt_of_mem_iff
        · exact (List.pairwise_lt_range _).filter _
        · exact hisort.2.filter _
        · intro a
          simp only [List.mem_filter, List.mem_range, innerPred,
            Bool.and_eq_true, Bool.not_eq_true', decide_eq_false_iff_not]
          constructor
          · rintro ⟨han, hnot, hjoins⟩
            push_neg at hnot
            rcases List.mem_cons.mp (hcover a han hnot.2) with h | h
            · exact absurd h hnot.1
            · exact ⟨h, hnot.2, hjoins⟩
          · rintro ⟨harest, hap, hjoins⟩
            refine ⟨hltrest a harest, ?_, hjoins⟩
            push_neg
            exact ⟨(hisort.1 a harest).ne', hap⟩
      have hjs_mem : ∀ a, a ∈ (innerScan locs i seed t (List.range locs.length)
            processed).1
          ↔ (a ∈ rest ∧ a ∉ processed ∧ joins locs seed t a = true) := by
        intro a
        rw [hjs_filter, hK1]
        simp only [List.mem_filter, Bool.and_eq_true, Bool.not_eq_true',
          decide_eq_false_iff_not]
        try tauto
      have hA : (innerScan locs i seed t (List.range locs.length)
              processed).1.filterMap (fun k => locs[k]?)
          = ((rest.filter (fun j => !decide (j ∈ processed))).filterMap
              (fun k => locs[k]?)).filter
              (fun o => decide (personOf o = personOf seed)
                  && withinThreshold seed o t) := by
        rw [hjs_filter, hK1]
        have hsplit : rest.filter
              (fun j => !decide (j ∈ processed) && joins locs seed t j)
            = (rest.filter (fun j => !decide (j ∈ processed))).filter
                (fun j => match locs[j]? with
                  | none => false
                  | some o => decide (personOf o = personOf seed)
                      && withinThreshold seed o t) := by
          rw [List.filter_filter]
          apply List.filter_congr
          intro a _
          show (!decide (a ∈ processed) && joins locs seed t a) = _
          rw [Bool.and_comm]
          rfl
        rw [hsplit, filterMap_getElem_filter]
      have hBpt : ∀ a ∈ rest,
          (!decide (a ∈ i :: (innerScan locs i seed t (List.range locs.length)
              processed).2))
            = (!(joins locs seed t a) && !decide (a ∈ processed)) := by
        intro a ha
        have hai : a ≠ i := (hisort.1 a ha).ne'
        by_cases hap : a ∈ processed
        · have : a ∈ i :: (innerScan locs i seed t (List.range locs.length)
              processed).2 :=
            List.mem_cons_of_mem i ((hmem2 a).mpr (Or.inr hap))
          simp [this, hap]
        · cases hjo : joins locs seed t a with
          | false =>
            have hnotin : a ∉ i :: (innerScan locs i seed t
                (List.range locs.length) processed).2 := by
              intro hmem
              rcases List.mem_cons.mp hmem with h | h
              · exact hai h
              · rcases (hmem2 a).mp h with h2 | h2
                · have := ((hjs_mem a).mp h2).2.2
                  rw [hjo] at this
                  exact Bool.false_ne_true this
                · exact hap h2
            simp [hnotin, hap]
          | true =>
            have : a ∈ i :: (innerScan locs i seed t (List.range locs.length)
                processed).2 :=
              List.mem_cons_of_mem i
                ((hmem2 a).mpr (Or.inl ((hjs_mem a).mpr ⟨ha, hap, hjo⟩)))
            simp [this]
      have hB : rest.filter (fun j => !decide (j ∈ i ::
            (innerScan locs i seed t (List.range locs.length) processed).2))
          = (rest.filter (fun j => !decide (j ∈ processed))).filter
              (fun j => match locs[j]? with
                | none => false
                | some o => !(decide (personOf o = personOf seed)
                    && withinThreshold seed o t)) := by
        rw [List.filter_filter]
        apply List.filter_congr
        intro a ha
        rw [hBpt a ha]
        obtain ⟨o, ho⟩ : ∃ o, locs[a]? = some o :=
          ⟨_, List.getElem?_eq_getElem (hltrest a ha)⟩
        have : joins locs seed t a
            = (decide (personOf o = personOf seed) && withinThreshold seed o t) := by
          rw [joins, ho]
        rw [this]
        simp [ho]
      have hcover3 : ∀ j, j < locs.length →
          j ∉ i :: (innerScan locs i seed t (List.range locs.length)
            processed).2 → j ∈ rest := by
        intro j hjn hjmem
        have hji : j ≠ i := fun h => hjmem (h ▸ List.mem_cons_self i _)
        have hjp : j ∉ processed := fun h =>
          hjmem (List.mem_cons_of_mem i ((hmem2 j).mpr (Or.inr h)))
        rcases List.mem_cons.mp (hcover j hjn hjp) with h | h
        · exact absurd h hji
        · exact h
      have hstep := ih
        (clusters ++ [(⟨seed ::
            (innerScan locs i seed t (List.range locs.length)
              processed).1.filterMap (fun k => locs[k]?),
            (seed.latitude, seed.longitude),
            personOf seed⟩,
          i :: (innerScan locs i seed t (List.range locs.length) processed).1)])
        (i :: (innerScan locs i seed t (List.range locs.length) processed).2)
        hisort.2 hltrest hcover3
      simp only [outerScan, if_neg hip, hgeti]
      rw [hstep]
      have hrhs : ((i :: rest).filter
            (fun j => !decide (j ∈ processed))).filterMap (fun k => locs[k]?)
          = seed :: (rest.filter (fun j => !decide (j ∈ processed))).filterMap
              (fun k => locs[k]?) := by
        simp [List.filter_cons, List.filterMap_cons, hip, hgeti]
      rw [hrhs]
      rw [hB, filterMap_getElem_filter]
      rw [hA]
      simp only [List.map_append, List.map_cons, List.map_nil,
        List.append_assoc, List.singleton_append]
      congr 1
      rw [greedyClusterSpec]

theorem clusterLocations_eq_greedy (locs : List LocationItem) (t : ℚ) :
    clusterLocations locs t = greedyClusterSpec t locs := by
  rw [clusterLocations, outerScan_eq_greedy locs t (List.range locs.length) [] []
    (List.pairwise_lt_range _) (fun j hj => List.mem_range.mp hj)
    (fun j hj _ => List.mem_range.mpr hj)]
  have hfilter : (List.range locs.length).filter
      (fun j => !decide (j ∈ ([] : List ℕ))) = List.range locs.length := by
    simp
  rw [hfilter, filterMap_getElem_range]
  simp

theorem greedy_flatMap_perm (t : ℚ) :
    ∀ (n : ℕ) (locs : List LocationItem), locs.length ≤ n →
      ((greedyClusterSpec t locs).flatMap ClusterItem.locations).Perm locs := by
  intro n
  induction n with
  | zero =>
    intro locs h
    rw [List.eq_nil_of_length_eq_zero (Nat.le_zero.mp h)]
    simp [greedyClusterSpec]
  | succ n ihn =>
    intro locs h
    match locs with
    | [] => simp [greedyClusterSpec]
    | seed :: rest =>
      have hrest : rest.length ≤ n := by simpa using h
      have hfar := ihn
        (rest.filter (fun o => !(decide (personOf o = personOf seed)
          && withinThreshold seed o t)))
        (le_trans (List.length_filter_le _ _) hrest)
      simp only [greedyClusterSpec, List.flatMap_cons]
      refine List.Perm.trans ?_
        (List.Perm.cons seed
          (List.filter_append_perm
            (fun o => decide (personOf o = personOf seed)
              && withinThreshold seed o t) rest))
      simp only [List.cons_append]
      exact List.Perm.cons seed (List.Perm.append_left _ hfar)

theorem greedy_nonempty (t : ℚ) :
    ∀ (n : ℕ) (locs : List LocationItem), locs.length ≤ n →
      ∀ c ∈ greedyClusterSpec t locs, c.locations ≠ [] := by
  intro n
  induction n with
  | zero =>
    intro locs h
    rw [List.eq_nil_of_length_eq_zero (Nat.le_zero.mp h)]
    simp [greedyClusterSpec]
  | succ n ihn =>
    intro locs h
    match locs with
    | [] => simp [greedyClusterSpec]
    | seed :: rest =>
      have hrest : rest.length ≤ n := by simpa using h
      intro c hc
      simp only [greedyClusterSpec, List.mem_cons] at hc
      rcases hc with hc | hc
      · rw [hc]
        simp
      · exact ihn
          (rest.filter (fun o => !(decide (personOf o = personOf seed)
            && withinThreshold seed o t)))
          (le_trans (List.length_filter_le _ _) hrest) c hc

theorem withinThreshold_mono (a b : LocationItem) (t1 t2 : ℚ) (h : t1 ≤ t2)
    (hw : withinThreshold a b t1 = true) : withinThreshold a b t2 = true := by
  simp only [withinThreshold, Bool.and_eq_true, decide_eq_true_eq] at hw ⊢
  obtain ⟨h0, hd⟩ := hw
  exact ⟨le_trans h0 h, le_trans hd (pow_le_pow_left₀ h0 h 2)⟩

/-! ### The claims -/

/-- C1: for every input list of location samples and every distance
threshold, the clusters produced by `clusterLocations` cover every sample
exactly once — the concatenation of the cluster member lists is a
permutation of the input, every cluster is non-empty, and the sum of
cluster sizes equals the number of input samples. -/
theorem claim1_clustering_coverage (locs : List LocationItem) (t : ℚ) :
    ((clusterLocations locs t).flatMap ClusterItem.locations).Perm locs
    ∧ (∀ c ∈ clusterLocations locs t, c.locations ≠ [])
    ∧ ((clusterLocations locs t).map (fun c => c.locations.length)).sum
        = locs.length := by
  have he := clusterLocations_eq_greedy locs t
  have hperm : ((clusterLocations locs t).flatMap ClusterItem.locations).Perm
      locs := by
    rw [he]
    exact greedy_flatMap_perm t locs.length locs le_rfl
  refine ⟨hperm, ?_, ?_⟩
  · rw [he]
    exact greedy_nonempty t locs.length locs le_rfl
  · have hlen := hperm.length_eq
    rw [List.flatMap, List.length_flatten, List.map_map] at hlen
    exact hlen

/-- C2: `clusterLocations` coincides with the spec's single-pass greedy
reference algorithm (fixed seed center, membership always tested against
the seed, same person only, input order); in particular one sample yields
exactly one singleton cluster whose center is that sample's coordinate. -/
theorem claim2_greedy_refinement :
    (∀ (locs : List LocationItem) (t : ℚ),
        clusterLocations locs t = greedyClusterSpec t locs)
    ∧ (∀ (l : LocationItem) (t : ℚ),
        clusterLocations [l] t
          = [{ locations := [l], center := (l.latitude, l.longitude),
               person := personOf l }]) := by
  refine ⟨clusterLocations_eq_greedy, ?_⟩
  intro l t
  rw [clusterLocations_eq_greedy]
  simp [greedyClusterSpec]

/-- C3 counterexample: with four samples of one person, raising the
distance threshold from `60·111000` to `100·111000` meters increases the
cluster count from 2 to 3, and shatters the size-3 cluster into singletons
— refuting both "never more clusters" and "never smaller clusters". -/
theorem claim3_counterexample :
    (6660000 : ℚ) ≤ 11100000
    ∧ ((clusterLocations cexLocs 6660000).map
        (fun c => c.locations.length)) = [1, 3]
    ∧ ((clusterLocations cexLocs 11100000).map
        (fun c => c.locations.length)) = [2, 1, 1] := by
  refine ⟨by norm_num, ?_, ?_⟩ <;>
    norm_num [clusterLocations, outerScan, innerScan, withinThreshold, distSq,
      personOf, jsOrStr, cexLocs, mkSample, List.range_succ,
      List.filterMap_cons, List.filterMap_nil]

/-- C3 amended: threshold monotonicity holds for the first cluster only —
for `t1 ≤ t2` the cluster seeded by the first sample at threshold `t1` has
the same center and person and a sublist of the membership it has at `t2`;
globally, a larger threshold can yield more and smaller clusters
(`claim3_counterexample`). -/
theorem claim3_first_cluster_monotone (l : LocationItem)
    (rest : List LocationItem) (t1 t2 : ℚ) (h : t1 ≤ t2) :
    ∃ c1 c2, (clusterLocations (l :: rest) t1).head? = some c1
      ∧ (clusterLocations (l :: rest) t2).head? = some c2
      ∧ c1.locations.Sublist c2.locations
      ∧ c1.center = c2.center ∧ c1.person = c2.person := by
  rw [clusterLocations_eq_greedy, clusterLocations_eq_greedy]
  simp only [greedyClusterSpec, List.head?_cons]
  refine ⟨_, _, rfl, rfl, ?_, rfl, rfl⟩
  apply List.Sublist.cons₂
  apply List.monotone_filter_right
  intro o ho
  simp only [Bool.and_eq_true] at ho ⊢
  exact ⟨ho.1, withinThreshold_mono l o t1 t2 h ho.2⟩

/-- Witness for `claim3_first_cluster_monotone` at a concrete input. -/
theorem claim3_first_cluster_monotone_witness :
    ∃ c1 c2,
      (clusterLocations [mkSample 0 0 "a" none] 0).head? = some c1
      ∧ (clusterLocations [mkSample 0 0 "a" none] 1).head? = some c2
      ∧ c1.locations.Sublist c2.locations
      ∧ c1.center = c2.center ∧ c1.person = c2.person :=
  claim3_first_cluster_monotone (mkSample 0 0 "a" none) [] 0 1 (by norm_num)

theorem insertionSort_sorted_self {l : List String}
    (h : l.Sorted (· < ·)) : l.insertionSort (· ≤ ·) = l :=
  List.eq_of_perm_of_sorted (List.perm_insertionSort _ l)
    (List.sorted_insertionSort _ l) (h.imp le_of_lt)

theorem sorted_of_toList_sorted {L : List String}
    (h : (L.map String.toList).Pairwise (· < ·)) : L.Sorted (· < ·) := by
  rw [List.pairwise_map] at h
  exact h.imp (fun hab => String.lt_iff_toList_lt.mpr hab)

theorem findIdx_sorted_get {l : List String} (h : l.Sorted (· < ·)) :
    ∀ (k : ℕ) (hk : k < l.length),
      l.findIdx? (fun s => s == l.get ⟨k, hk⟩) = some k := by
  induction l with
  | nil => intro k hk; simp at hk
  | cons a rest ih =>
    intro k hk
    cases k with
    | zero => simp
    | succ k =>
      have hk2 : k < rest.length := Nat.lt_of_succ_lt_succ hk
      have ha : a < rest.get ⟨k, hk2⟩ :=
        (List.pairwise_cons.mp h).1 _ (rest.get_mem _ _)
      have hne : (a == rest.get ⟨k, hk2⟩) = false :=
        beq_eq_false_iff_ne.mpr (ne_of_lt ha)
      have hrest := ih (List.pairwise_cons.mp h).2 k hk2
      simp only [List.get_cons_succ, List.findIdx?_cons, hne,
        Bool.false_eq_true, reduceIte, List.findIdx?_start_succ, hrest,
        Nat.zero_add]
      rfl

theorem getMarkerSize_sorted_rank (l : List String) (hlen : 2 ≤ l.length)
    (hsort : l.Sorted (· < ·)) (k : ℕ) (hk : k < l.length) :
    getMarkerSize (l.get ⟨k, hk⟩) l
      = if ((k : ℚ) / ((l.length : ℚ) - 1)) < 3 / 10 then MarkerSize.small
        else if ((k : ℚ) / ((l.length : ℚ) - 1)) > 8 / 10 then MarkerSize.large
        else MarkerSize.medium := by
  have h1 : ¬(l.length ≤ 1) := by omega
  simp only [getMarkerSize, if_neg h1, insertionSort_sorted_self hsort,
    findIdx_sorted_get hsort k hk, Int.cast_natCast]

/-- C4 counterexample: the tier of `person1`'s earliest sample (rank 0 of
its ten evenly spaced timestamps) is `small` when the result contains only
`person1`, but becomes `medium` when ten earlier samples of `person2` are
present in the same result — the code ranks a timestamp among *all*
timestamps of the `QueryResult`, not among its person's timestamps. -/
theorem claim4_counterexample :
    getMarkerSize "10" (allTimestampsOf (some resBoth)) = MarkerSize.medium
    ∧ getMarkerSize "10" (allTimestampsOf (some resOnly1)) = MarkerSize.small := by
  have hts2 : allTimestampsOf (some resBoth)
      = ["00", "01", "02", "03", "04", "05", "06", "07", "08", "09",
         "10", "11", "12", "13", "14", "15", "16", "17", "18", "19"] := by
    simp [allTimestampsOf, resBoth, p1Samples, p2Samples, mkSample]
  have hts1 : allTimestampsOf (some resOnly1)
      = ["10", "11", "12", "13", "14", "15", "16", "17", "18", "19"] := by
    simp [allTimestampsOf, resOnly1, p1Samples, mkSample]
  have hs2 : (["00", "01", "02", "03", "04", "05", "06", "07", "08", "09",
      "10", "11", "12", "13", "14", "15", "16", "17", "18", "19"] :
        List String).Sorted (· < ·) :=
    sorted_of_toList_sorted (by decide)
  have hs1 : (["10", "11", "12", "13", "14", "15", "16", "17", "18", "19"] :
        List String).Sorted (· < ·) :=
    sorted_of_toList_sorted (by decide)
  constructor
  · rw [hts2]
    have h := getMarkerSize_sorted_rank _ (by norm_num) hs2 10 (by norm_num)
    norm_num at h
    exact h
  · rw [hts1]
    have h := getMarkerSize_sorted_rank _ (by norm_num) hs1 0 (by norm_num)
    norm_num at h
    exact h

/-- C4 amended: the marker size tier is the sample's rank among the sorted
list of all timestamps of the whole `QueryResult` (not of the sample's
person alone): on a strictly sorted timestamp list of length at least 2,
rank `k` gets `small` when `k/(count-1) < 0.3`, `large` when it exceeds
`0.8`, otherwise `medium`; and a single-timestamp list always yields
`medium`. -/
theorem claim4_marker_rank (l : List String) (hlen : 2 ≤ l.length)
    (hsort : l.Sorted (· < ·)) (k : ℕ) (hk : k < l.length) :
    (getMarkerSize (l.get ⟨k, hk⟩) l
      = if ((k : ℚ) / ((l.length : ℚ) - 1)) < 3 / 10 then MarkerSize.small
        else if ((k : ℚ) / ((l.length : ℚ) - 1)) > 8 / 10 then MarkerSize.large
        else MarkerSize.medium)
    ∧ (∀ ts t0 : String, getMarkerSize ts [t0] = MarkerSize.medium) := by
  refine ⟨getMarkerSize_sorted_rank l hlen hsort k hk, ?_⟩
  intro ts t0
  simp [getMarkerSize]

/-- Witness for `claim4_marker_rank` at a concrete sorted input. -/
theorem claim4_marker_rank_witness :
    getMarkerSize "a" ["a", "b"] = MarkerSize.small
    ∧ getMarkerSize "x" ["y"] = MarkerSize.medium := by
  have h := claim4_marker_rank ["a", "b"] (by norm_num)
    (sorted_of_toList_sorted (by decide)) 0 (by norm_num)
  refine ⟨?_, h.2 "x" "y"⟩
  have h1 := h.1
  norm_num at h1
  exact h1

/-- C5: a new query result resets the visible-person set to exactly the
person ids of the new result's grouping, independent of the prior state and
of any earlier result (per-person toggles are discarded), while the three
display-mode flags persist; concretely, a result with persons A and B
followed by one with persons A and C leaves exactly A and C visible. -/
theorem claim5_visibility_reset (s : MapState) (r1 r2 : LocationResponse) :
    (onNewResult r2 (onNewResult r1 s)).visiblePersons = groupKeys r2
    ∧ (onNewResult r2 (onNewResult r1 s)).showPaths = s.showPaths
    ∧ (onNewResult r2 (onNewResult r1 s)).showArrows = s.showArrows
    ∧ (onNewResult r2 (onNewResult r1 s)).showClusters = s.showClusters
    ∧ (onNewResult resAC (onNewResult resAB s)).visiblePersons
        = ({"A", "C"} : Finset String) := by
  refine ⟨rfl, rfl, rfl, rfl, ?_⟩
  simp only [onNewResult, groupKeys, resAC, personKeyOf, mkSample, jsOrStr]
  decide

/-- C6 evidence (code bug): `handleQuery` has no stale-response guard —
with Q1 issued before Q2 but Q1's response arriving after Q2's, the
displayed result is Q1's stale response, not Q2's. -/
theorem claim6_stale_overwrite :
    (runQueryEvents { locations := none, loading := false, alerts := [] }
        [QueryEvent.issue, QueryEvent.issue,
         QueryEvent.resolve (FetchOutcome.success respQ2),
         QueryEvent.resolve (FetchOutcome.success respQ1)]).locations
      = some respQ1
    ∧ respQ1 ≠ respQ2 := by
  exact ⟨rfl, by decide⟩

/-- C7: when the fetch fails (non-success HTTP response or transport
error), a completed `handleQuery` call leaves the previously displayed
result unchanged, appends the user-visible error message, and clears the
loading flag. -/
theorem claim7_failure_keeps_state (s : PageState) (outcome : FetchOutcome)
    (h : ∀ d, outcome ≠ FetchOutcome.success d) :
    (handleQueryRun s outcome).locations = s.locations
    ∧ (handleQueryRun s outcome).alerts = s.alerts ++ [queryErrorMessage]
    ∧ (handleQueryRun s outcome).loading = false := by
  cases outcome with
  | success d => exact absurd rfl (h d)
  | httpError => exact ⟨rfl, rfl, rfl⟩
  | transportError => exact ⟨rfl, rfl, rfl⟩

/-- Witness for `claim7_failure_keeps_state`: an HTTP failure over a page
showing Q1's result keeps that result, alerts once, and stops loading. -/
theorem claim7_failure_keeps_state_witness :
    (handleQueryRun pageShowingQ1 FetchOutcome.httpError).locations
        = some respQ1
    ∧ (handleQueryRun pageShowingQ1 FetchOutcome.httpError).alerts
        = [queryErrorMessage]
    ∧ (handleQueryRun pageShowingQ1 FetchOutcome.httpError).loading = false := by
  have h := claim7_failure_keeps_state pageShowingQ1 FetchOutcome.httpError
    (fun d hd => FetchOutcome.noConfusion hd)
  exact ⟨h.1, h.2.1, h.2.2⟩

/-- C8: color assignment is pure and deterministic — a `person_colors`
override is returned verbatim; otherwise a 1-based `personN` suffix picks
palette entry `(N-1) % 10` (suffix `N ≥ 1`), no parseable suffix defaults
to palette entry 0, and an absent person id yields the fixed neutral
gray. -/
theorem claim8_color_assignment :
    (∀ (res : LocationResponse) (table : List (String × String)) (p c : String),
        res.person_colors = some table → lookupColor table p = some c →
        c.isEmpty = false → p.isEmpty = false →
        getPersonColorFromResponse (some res) (some p) = some c)
    ∧ (∀ (p : String) (n : ℕ), matchPersonNum p = some n → 1 ≤ n →
        p.isEmpty = false → getPersonColor (some p) = colors[(n - 1) % 10]?)
    ∧ getPersonColor (some "person3") = some "#10B981"
    ∧ (∀ p : String, matchPersonNum p = none → p.isEmpty = false →
        getPersonColor (some p) = some "#3B82F6")
    ∧ getPersonColor none = some "#6B7280"
    ∧ getPersonColorFromResponse (some resOverride) (some "person1")
        = some "#ABCDEF" := by
  refine ⟨?_, ?_, by decide, ?_, rfl, by decide⟩
  · intro res table p c hpc hl hc hp
    simp [getPersonColorFromResponse, hpc, hl, hc, hp]
  · intro p n hm h1 hp
    have hlen10 : (colors.length : ℤ) = 10 := by norm_num [colors]
    have hcast : ((n : ℤ) - 1).tmod (colors.length : ℤ)
        = (((n - 1) % 10 : ℕ) : ℤ) := by
      rw [hlen10, Int.tmod_eq_emod (by omega) (by norm_num)]
      omega
    have hnonneg : ¬((((n - 1) % 10 : ℕ) : ℤ) < 0) := by omega
    simp only [getPersonColor, hp, Bool.false_eq_true, reduceIte, hm, hcast]
    rw [if_neg hnonneg, Int.toNat_natCast]
  · intro p hm hp
    simp [getPersonColor, hm, hp, Int.zero_tmod, colors]

/-- Witness for `claim8_color_assignment` at concrete inputs. -/
theorem claim8_color_assignment_witness :
    getPersonColor (some "person13") = colors[(13 - 1) % 10]?
    ∧ getPersonColorFromResponse (some resOverride) (some "person1")
        = some "#ABCDEF" :=
  ⟨claim8_color_assignment.2.1 "person13" 13 (by decide) (by norm_num)
      (by decide),
    claim8_color_assignment.1 resOverride [("person1", "#ABCDEF")] "person1"
      "#ABCDEF" rfl rfl (by decide) (by decide)⟩

/-- C10: for the identifier `person0` the computed palette index is `-1`;
the JavaScript remainder keeps the sign, so the palette is read out of
range and the result is `undefined` (`none`) — neither a palette color nor
the neutral gray; in general a truthy identifier yields an undefined color
exactly when its parsed suffix is 0. -/
theorem claim10_person0_undefined :
    getPersonColor (some "person0") = none
    ∧ (∀ p : String, p.isEmpty = false →
        ((getPersonColor (some p)).isNone ↔ matchPersonNum p = some 0)) := by
  refine ⟨by decide, ?_⟩
  intro p hp
  cases hm : matchPersonNum p with
  | none =>
    simp [getPersonColor, hp, hm, Int.zero_tmod, colors]
  | some n =>
    cases n with
    | zero =>
      simp [getPersonColor, hp, hm]
      decide
    | succ n =>
      have hlen10 : (colors.length : ℤ) = 10 := by norm_num [colors]
      have hcast : (((n + 1 : ℕ) : ℤ) - 1).tmod (colors.length : ℤ)
          = ((n % 10 : ℕ) : ℤ) := by
        rw [hlen10, Int.tmod_eq_emod (by omega) (by norm_num)]
        omega
      have hlt : n % 10 < colors.length := by
        have := Nat.mod_lt n (show 0 < 10 by norm_num)
        simp only [colors, List.length_cons, List.length_nil]
        omega
      have hnonneg : ¬(((n % 10 : ℕ) : ℤ) < 0) := by omega
      simp only [getPersonColor, hp, Bool.false_eq_true, reduceIte, hm, hcast]
      rw [if_neg hnonneg, Int.toNat_natCast]
      simp [List.getElem?_eq_getElem hlt]

/-- Witness for the second part of `claim10_person0_undefined`. -/
theorem claim10_person0_undefined_witness :
    (getPersonColor (some "alice")).isNone ↔ matchPersonNum "alice" = some 0 :=
  claim10_person0_undefined.2 "alice" (by decide)

theorem listMin_spec (l : List ℚ) :
    ∀ x : ℚ, (listMin x l = x ∨ listMin x l ∈ l)
      ∧ listMin x l ≤ x ∧ ∀ y ∈ l, listMin x l ≤ y := by
  induction l with
  | nil => intro x; simp [listMin]
  | cons a l ih =>
    intro x
    have hstep : listMin x (a :: l) = listMin (min x a) l := rfl
    have h := ih (min x a)
    refine ⟨?_, ?_, ?_⟩
    · rcases h.1 with h1 | h1
      · rcases min_choice x a with hm | hm
        · exact Or.inl (by rw [hstep, h1, hm])
        · exact Or.inr (by rw [hstep, h1, hm]; exact List.mem_cons_self a l)
      · exact Or.inr (List.mem_cons_of_mem a (hstep ▸ h1))
    · rw [hstep]
      exact le_trans h.2.1 (min_le_left x a)
    · intro y hy
      rcases List.mem_cons.mp hy with hy | hy
      · rw [hstep, hy]
        exact le_trans h.2.1 (min_le_right x a)
      · exact hstep ▸ h.2.2 y hy

theorem listMax_spec (l : List ℚ) :
    ∀ x : ℚ, (listMax x l = x ∨ listMax x l ∈ l)
      ∧ x ≤ listMax x l ∧ ∀ y ∈ l, y ≤ listMax x l := by
  induction l with
  | nil => intro x; simp [listMax]
  | cons a l ih =>
    intro x
    have hstep : listMax x (a :: l) = listMax (max x a) l := rfl
    have h := ih (max x a)
    refine ⟨?_, ?_, ?_⟩
    · rcases h.1 with h1 | h1
      · rcases max_choice x a with hm | hm
        · exact Or.inl (by rw [hstep, h1, hm])
        · exact Or.inr (by rw [hstep, h1, hm]; exact List.mem_cons_self a l)
      · exact Or.inr (List.mem_cons_of_mem a (hstep ▸ h1))
    · rw [hstep]
      exact le_trans (le_max_left x a) h.2.1
    · intro y hy
      rcases List.mem_cons.mp hy with hy | hy
      · rw [hstep, hy]
        exact le_trans (le_max_right x a) h.2.1
      · exact hstep ▸ h.2.2 y hy

theorem getMapBounds_two (res : LocationResponse) (l l2 : LocationItem)
    (rest : List LocationItem) (h : res.locations = l :: l2 :: rest) :
    getMapBounds (some res)
      = (((listMin l.latitude ((l2 :: rest).map (·.latitude))
            + listMax l.latitude ((l2 :: rest).map (·.latitude))) / 2,
          (listMin l.longitude ((l2 :: rest).map (·.longitude))
            + listMax l.longitude ((l2 :: rest).map (·.longitude))) / 2),
         14) := by
  obtain ⟨p1, ps, tp, locsf, sm, pc⟩ := res
  dsimp only at h
  subst h
  rfl

/-- C9: the derived map-viewport suggestion — no result or no samples give
the fixed default region (Tel Aviv) at zoom 13; exactly one sample gives
that sample's coordinate at the tighter zoom 15; two or more samples give
the midpoint of the minimum and maximum latitude and longitude at the
fixed zoom 14. -/
theorem claim9_map_bounds :
    getMapBounds none = (defaultCenter, 13)
    ∧ (∀ res : LocationResponse, res.locations = [] →
        getMapBounds (some res) = (defaultCenter, 13))
    ∧ (∀ (res : LocationResponse) (l : LocationItem), res.locations = [l] →
        getMapBounds (some res) = ((l.latitude, l.longitude), 15))
    ∧ (∀ res : LocationResponse, 2 ≤ res.locations.length →
        (getMapBounds (some res)).2 = 14
        ∧ (∃ lo hi,
            lo ∈ res.locations.map (·.latitude)
            ∧ hi ∈ res.locations.map (·.latitude)
            ∧ (∀ x ∈ res.locations.map (·.latitude), lo ≤ x ∧ x ≤ hi)
            ∧ (getMapBounds (some res)).1.1 = (lo + hi) / 2)
        ∧ (∃ lo hi,
            lo ∈ res.locations.map (·.longitude)
            ∧ hi ∈ res.locations.map (·.longitude)
            ∧ (∀ x ∈ res.locations.map (·.longitude), lo ≤ x ∧ x ≤ hi)
            ∧ (getMapBounds (some res)).1.2 = (lo + hi) / 2)) := by
  refine ⟨rfl, ?_, ?_, ?_⟩
  · intro res h
    simp [getMapBounds, h]
  · intro res l h
    simp [getMapBounds, h]
  · intro res hlen
    obtain ⟨l, l2, rest, hloc⟩ :
        ∃ l l2 rest, res.locations = l :: l2 :: rest := by
      match hx : res.locations with
      | [] => rw [hx] at hlen; simp at hlen
      | [l] => rw [hx] at hlen; simp at hlen
      | l :: l2 :: rest => exact ⟨l, l2, rest, rfl⟩
    rw [getMapBounds_two res l l2 rest hloc, hloc]
    refine ⟨rfl, ?_, ?_⟩
    · refine ⟨listMin l.latitude ((l2 :: rest).map (·.latitude)),
        listMax l.latitude ((l2 :: rest).map (·.latitude)), ?_, ?_, ?_, ?_⟩
      · rcases (listMin_spec _ l.latitude).1 with h1 | h1
        · rw [List.map_cons, h1]
          exact List.mem_cons_self _ _
        · exact List.map_cons _ _ _ ▸ List.mem_cons_of_mem _ h1
      · rcases (listMax_spec _ l.latitude).1 with h1 | h1
        · rw [List.map_cons, h1]
          exact List.mem_cons_self _ _
        · exact List.map_cons _ _ _ ▸ List.mem_cons_of_mem _ h1
      · intro x hx
        rw [List.map_cons] at hx
        rcases List.mem_cons.mp hx with hx | hx
        · rw [hx]
          exact ⟨(listMin_spec _ l.latitude).2.1, (listMax_spec _ l.latitude).2.1⟩
        · exact ⟨(listMin_spec _ l.latitude).2.2 x hx,
            (listMax_spec _ l.latitude).2.2 x hx⟩
      · rfl
    · refine ⟨listMin l.longitude ((l2 :: rest).map (·.longitude)),
        listMax l.longitude ((l2 :: rest).map (·.longitude)), ?_, ?_, ?_, ?_⟩
      · rcases (listMin_spec _ l.longitude).1 with h1 | h1
        · rw [List.map_cons, h1]
          exact List.mem_cons_self _ _
        · exact List.map_cons _ _ _ ▸ List.mem_cons_of_mem _ h1
      · rcases (listMax_spec _ l.longitude).1 with h1 | h1
        · rw [List.map_cons, h1]
          exact List.mem_cons_self _ _
        · exact List.map_cons _ _ _ ▸ List.mem_cons_of_mem _ h1
      · intro x hx
        rw [List.map_cons] at hx
        rcases List.mem_cons.mp hx with hx | hx
        · rw [hx]
          exact ⟨(listMin_spec _ l.longitude).2.1,
            (listMax_spec _ l.longitude).2.1⟩
        · exact ⟨(listMin_spec _ l.longitude).2.2 x hx,
            (listMax_spec _ l.longitude).2.2 x hx⟩
      · rfl

/-- Witness for `claim9_map_bounds` at concrete inputs. -/
theorem claim9_map_bounds_witness :
    getMapBounds (some respQ1) = (defaultCenter, 13)
    ∧ (getMapBounds (some resAB)).2 = 14 :=
  ⟨claim9_map_bounds.2.1 respQ1 rfl,
    (claim9_map_bounds.2.2.2 resAB (by norm_num [resAB])).1⟩

end AiLoc
